import Mathlib

/-!
Formal model of the lazy linear-operator abstraction exercised by the
notebook `02_linear_algebra` of this repository.  The notebook constructs
operators via `aslinearoperator` on dense arrays, via an explicit
function-backed constructor (the sum-and-repeat operator `Afun`), and
composes them with `+`, `@` and `.T`.  Vectors are modelled as lists of
integers (exact arithmetic standing in for floating point on the integer
examples the notebook uses); fallible operations return `Except`.
-/

/-- A vector: a finite sequence of scalars. -/
abbrev Vec := List ℤ

/-- A matrix of column vectors (the batched-apply input format). -/
abbrev Mat := List Vec

/-- Element-wise sum of two vectors. -/
def vecAdd (u v : Vec) : Vec := List.zipWith (fun a b => a + b) u v

/-- Scalar multiple of a vector. -/
def vecSmul (a : ℤ) (v : Vec) : Vec := v.map (fun t => a * t)

/-- Inner product of two vectors. -/
def dot (u v : Vec) : ℤ := (List.zipWith (fun a b => a * b) u v).sum

/-- Dense matrix (list of rows) times vector: row-wise inner products. -/
def matVecMul (M : Mat) (x : Vec) : Vec := M.map (fun row => dot row x)

/-- The column count of a dense matrix given as a list of rows. -/
def numCols (M : Mat) : Nat := (M.headD []).length

/-- Transposed dense matrix (list of rows) times vector: the linear
combination of the rows of `M` with coefficients `y`, padded to width `c`. -/
def rmatVecMul (M : Mat) (c : Nat) (y : Vec) : Vec :=
  match M, y with
  | row :: M', a :: y' => vecAdd (vecSmul a row) (rmatVecMul M' c y')
  | _, _ => List.replicate c 0

/-- Dense matrix product (both given as lists of rows): each row of the
product is the corresponding row of `M` combined against the rows of `N`. -/
def matProd (M N : Mat) : Mat := M.map (fun row => rmatVecMul N (numCols N) row)

/-- The all-ones `r × c` matrix, as in `np.ones((r, c))`. -/
def onesMat (r c : Nat) : Mat := List.replicate r (List.replicate c 1)

/-- Modelled from the spec: the two error kinds of the operator layer
(`ShapeError` and `UnsupportedOperationError`); the concrete error type is
not part of the sources under `src/`. -/
inductive OpError where
  | shapeError
  | unsupportedOperationError
deriving DecidableEq

/-- Modelled from the spec: the `LazyOperator` record — a fixed `shape`
`(rows, cols)` plus optional apply callables `matvec`, `rmatvec`, `matmat`,
`rmatmat`.  The implementation wrapped by the notebook is not under `src/`;
capabilities are optional fields so that a partially-capable operator can be
constructed, with `UnsupportedOperationError` surfaced only at the point of
the unsupported call. -/
structure LazyOperator where
  shape : Nat × Nat
  matvec : Option (Vec → Vec)
  rmatvec : Option (Vec → Vec)
  matmat : Option (Mat → Mat)
  rmatmat : Option (Mat → Mat)

/-- Modelled from the spec: `apply(x)` validates `len(x) == shape[1]`,
invokes `matvec` (failing with `UnsupportedOperationError` when undefined),
validates `len(result) == shape[0]`, and returns the result. -/
def LazyOperator.apply (A : LazyOperator) (x : Vec) : Except OpError Vec :=
  if x.length ≠ A.shape.2 then .error .shapeError
  else
    match A.matvec with
    | none => .error .unsupportedOperationError
    | some f =>
      if (f x).length ≠ A.shape.1 then .error .shapeError else .ok (f x)

/-- Modelled from the spec: `apply_adjoint(y)` with the mirrored dimension
contract, invoking `rmatvec`. -/
def LazyOperator.apply_adjoint (A : LazyOperator) (y : Vec) : Except OpError Vec :=
  if y.length ≠ A.shape.1 then .error .shapeError
  else
    match A.rmatvec with
    | none => .error .unsupportedOperationError
    | some g =>
      if (g y).length ≠ A.shape.2 then .error .shapeError else .ok (g y)

/-- Modelled from the spec: the effective batched forward apply — the
supplied `matmat`, or, when unsupplied, the column-wise synthesis from
`matvec`; undefined when neither is available. -/
def LazyOperator.matmatEff (A : LazyOperator) : Option (Mat → Mat) :=
  match A.matmat with
  | some h => some h
  | none => A.matvec.map (fun f => fun X => X.map f)

/-- Modelled from the spec: the effective batched adjoint apply — the
supplied `rmatmat`, or the column-wise synthesis from `rmatvec`. -/
def LazyOperator.rmatmatEff (A : LazyOperator) : Option (Mat → Mat) :=
  match A.rmatmat with
  | some h => some h
  | none => A.rmatvec.map (fun g => fun Y => Y.map g)

/-- Modelled from the spec: `apply_matrix(X)` with the same contract as
`apply`, column-wise. -/
def LazyOperator.apply_matrix (A : LazyOperator) (X : Mat) : Except OpError Mat :=
  if ¬ (∀ col ∈ X, col.length = A.shape.2) then .error .shapeError
  else
    match A.matmatEff with
    | none => .error .unsupportedOperationError
    | some h =>
      if ¬ (∀ col ∈ h X, col.length = A.shape.1) then .error .shapeError
      else .ok (h X)

/-- Modelled from the spec: `apply_adjoint_matrix(Y)` with the mirrored
contract, column-wise. -/
def LazyOperator.apply_adjoint_matrix (A : LazyOperator) (Y : Mat) : Except OpError Mat :=
  if ¬ (∀ col ∈ Y, col.length = A.shape.1) then .error .shapeError
  else
    match A.rmatmatEff with
    | none => .error .unsupportedOperationError
    | some h =>
      if ¬ (∀ col ∈ h Y, col.length = A.shape.2) then .error .shapeError
      else .ok (h Y)

/-- Modelled from the spec: `aslinearoperator` wraps a dense array as an
operator with `matvec(x) = M·x`, `rmatvec(y) = Mᵗ·y` and the batched forms,
as used in the notebook (`aslinearoperator(np.ones((n,1)))`). -/
def aslinearoperator (M : Mat) : LazyOperator where
  shape := (M.length, numCols M)
  matvec := some (matVecMul M)
  rmatvec := some (rmatVecMul M (numCols M))
  matmat := some (fun X => X.map (matVecMul M))
  rmatmat := some (fun Y => Y.map (rmatVecMul M (numCols M)))

/-- Modelled from the spec: construction from functions with only `matvec`
supplied; the remaining capabilities are left undefined (and `rmatvec` has
no synthesis route from `matvec`).  Construction is total: it always
succeeds. -/
def fromMatvec (s : Nat × Nat) (f : Vec → Vec) : LazyOperator :=
  ⟨s, some f, none, none, none⟩

/-- The notebook's sum-and-repeat map: `Afun(X) = np.sum(X, axis=0)`
repeated in each of the `m` entries — the action of the all-ones `m × m`
matrix on a vector. -/
def Afun (m : Nat) (x : Vec) : Vec := List.replicate m x.sum

/-- The notebook's function-backed operator: `LinearOperator(shape=(m,m),
matvec=Afun, rmatvec=Afun, matmat=Afun, rmatmat=Afun)`, with the batched
forms acting column-wise as the numpy `Afun` does on matrices. -/
def Aop (m : Nat) : LazyOperator where
  shape := (m, m)
  matvec := some (Afun m)
  rmatvec := some (Afun m)
  matmat := some (fun X => X.map (Afun m))
  rmatmat := some (fun X => X.map (Afun m))

/-- Modelled from the spec: `scale(α)` — shape unchanged, every available
apply function multiplied by `α`. -/
def scale (a : ℤ) (A : LazyOperator) : LazyOperator where
  shape := A.shape
  matvec := A.matvec.map (fun f => fun x => vecSmul a (f x))
  rmatvec := A.rmatvec.map (fun g => fun y => vecSmul a (g y))
  matmat := A.matmat.map (fun h => fun X => (h X).map (vecSmul a))
  rmatmat := A.rmatmat.map (fun h => fun Y => (h Y).map (vecSmul a))

/-- Modelled from the spec: `add(A, B)` — requires `A.shape == B.shape`
(else `ShapeError`); `matvec(x) = A.matvec(x) + B.matvec(x)`, defined when
both operands define it; batched forms are left to column-wise synthesis. -/
def add (A B : LazyOperator) : Except OpError LazyOperator :=
  if A.shape ≠ B.shape then .error .shapeError
  else .ok
    { shape := A.shape
      matvec := match A.matvec, B.matvec with
        | some f, some g => some (fun x => vecAdd (f x) (g x))
        | _, _ => none
      rmatvec := match A.rmatvec, B.rmatvec with
        | some f, some g => some (fun y => vecAdd (f y) (g y))
        | _, _ => none
      matmat := none
      rmatmat := none }

/-- Modelled from the spec: `matmul(A, B)` — requires
`A.shape[1] == B.shape[0]` (else `ShapeError`); result shape
`(A.shape[0], B.shape[1])`; `matvec(x) = A.matvec(B.matvec(x))` (right
operand first), `rmatvec(y) = B.rmatvec(A.rmatvec(y))`. -/
def matmul (A B : LazyOperator) : Except OpError LazyOperator :=
  if A.shape.2 ≠ B.shape.1 then .error .shapeError
  else .ok
    { shape := (A.shape.1, B.shape.2)
      matvec := match A.matvec, B.matvec with
        | some f, some g => some (fun x => f (g x))
        | _, _ => none
      rmatvec := match A.rmatvec, B.rmatvec with
        | some f, some g => some (fun y => g (f y))
        | _, _ => none
      matmat := none
      rmatmat := none }

/-- Modelled from the spec: `transpose(A)` — shape swapped, `matvec` and
`rmatvec` (and the batched forms) exchanged; when `A.rmatvec` is undefined
the transposed operator's forward capability is undefined and the error
surfaces at the point of the call. -/
def transpose (A : LazyOperator) : LazyOperator :=
  ⟨(A.shape.2, A.shape.1), A.rmatvec, A.matvec, A.rmatmat, A.matmat⟩

/-- The spec's shape invariant for the forward map: whenever `matvec` is
defined, it sends inputs of length `shape[1]` to outputs of length
`shape[0]`. -/
def MatvecWF (A : LazyOperator) : Prop :=
  ∀ f, A.matvec = some f → ∀ x : Vec, x.length = A.shape.2 → (f x).length = A.shape.1

/-- The spec's shape invariant for the adjoint map. -/
def RmatvecWF (A : LazyOperator) : Prop :=
  ∀ g, A.rmatvec = some g → ∀ y : Vec, y.length = A.shape.1 → (g y).length = A.shape.2

/-- An operator satisfying the spec's shape invariants in both directions. -/
def WellFormed (A : LazyOperator) : Prop := MatvecWF A ∧ RmatvecWF A

/-- `A` has a defined adjoint: both apply callables are present and
`rmatvec` is genuinely adjoint to `matvec` with respect to the inner
product on vectors of the operator's dimensions. -/
def HasAdjoint (A : LazyOperator) : Prop :=
  ∃ f g, A.matvec = some f ∧ A.rmatvec = some g ∧
    ∀ x y : Vec, x.length = A.shape.2 → y.length = A.shape.1 →
      dot (f x) y = dot x (g y)

deriving instance DecidableEq for Except

theorem length_vecAdd (u v : Vec) : (vecAdd u v).length = min u.length v.length :=
  List.length_zipWith ..

theorem length_vecSmul (a : ℤ) (v : Vec) : (vecSmul a v).length = v.length :=
  List.length_map ..

theorem vecAdd_self (v : Vec) : vecAdd v v = vecSmul 2 v := by
  induction v with
  | nil => rfl
  | cons a v ih => simp [vecAdd, vecSmul, two_mul] at *

theorem dot_nil_left (v : Vec) : dot [] v = 0 := by simp [dot]

theorem dot_nil_right (u : Vec) : dot u [] = 0 := by simp [dot]

theorem dot_cons (a b : ℤ) (u v : Vec) : dot (a :: u) (b :: v) = a * b + dot u v := by
  simp [dot]

theorem dot_comm (u v : Vec) : dot u v = dot v u := by
  induction u generalizing v with
  | nil => cases v <;> simp [dot]
  | cons a u ih =>
    cases v with
    | nil => simp [dot]
    | cons b v => rw [dot_cons, dot_cons, mul_comm, ih]

theorem dot_vecSmul (x : Vec) (a : ℤ) (v : Vec) :
    dot x (vecSmul a v) = a * dot x v := by
  induction x generalizing v with
  | nil => simp [dot]
  | cons c x ih =>
    cases v with
    | nil => simp [dot, vecSmul]
    | cons b v =>
      rw [show vecSmul a (b :: v) = (a * b) :: vecSmul a v from rfl,
        dot_cons, dot_cons, ih]
      ring

theorem dot_vecAdd (x u v : Vec) (h : u.length = v.length) :
    dot x (vecAdd u v) = dot x u + dot x v := by
  induction x generalizing u v with
  | nil => simp [dot]
  | cons c x ih =>
    cases u with
    | nil =>
      cases v with
      | nil => simp [dot, vecAdd]
      | cons b v => simp at h
    | cons a u =>
      cases v with
      | nil => simp at h
      | cons b v =>
        rw [show vecAdd (a :: u) (b :: v) = (a + b) :: vecAdd u v from rfl,
          dot_cons, dot_cons, dot_cons, ih u v (by simpa using h)]
        ring

theorem dot_replicate_zero (x : Vec) (c : Nat) :
    dot x (List.replicate c 0) = 0 := by
  induction x generalizing c with
  | nil => simp [dot]
  | cons a x ih =>
    cases c with
    | zero => simp [dot]
    | succ c => rw [List.replicate_succ, dot_cons, ih]; ring

theorem rmatVecMul_length (M : Mat) (c : Nat) (y : Vec)
    (h : ∀ row ∈ M, row.length = c) : (rmatVecMul M c y).length = c := by
  induction M generalizing y with
  | nil => simp [rmatVecMul]
  | cons row M' ih =>
    cases y with
    | nil => simp [rmatVecMul]
    | cons a y' =>
      rw [show rmatVecMul (row :: M') c (a :: y') =
        vecAdd (vecSmul a row) (rmatVecMul M' c y') from rfl]
      rw [length_vecAdd, length_vecSmul, h row (by simp),
        ih y' (fun r hr => h r (by simp [hr])), min_self]

theorem length_matVecMul (M : Mat) (x : Vec) : (matVecMul M x).length = M.length :=
  List.length_map ..

/-- The adjoint identity for dense matrices: `⟨M·x, y⟩ = ⟨x, Mᵗ·y⟩`. -/
theorem adjoint_dot (M : Mat) (c : Nat) (x y : Vec)
    (h : ∀ row ∈ M, row.length = c) :
    dot (matVecMul M x) y = dot x (rmatVecMul M c y) := by
  induction M generalizing y with
  | nil => simp [matVecMul, rmatVecMul, dot_nil_left, dot_replicate_zero]
  | cons row M' ih =>
    cases y with
    | nil =>
      simp [rmatVecMul, dot_nil_right, dot_replicate_zero]
    | cons a y' =>
      rw [show matVecMul (row :: M') x = dot row x :: matVecMul M' x from rfl,
        show rmatVecMul (row :: M') c (a :: y') =
          vecAdd (vecSmul a row) (rmatVecMul M' c y') from rfl,
        dot_cons,
        dot_vecAdd x (vecSmul a row) (rmatVecMul M' c y')
          (by rw [length_vecSmul, h row (by simp),
            rmatVecMul_length M' c y' (fun r hr => h r (by simp [hr]))]),
        dot_vecSmul, ih y' (fun r hr => h r (by simp [hr])), dot_comm row x]
      ring

theorem aslinearoperator_wellFormed (M : Mat)
    (h : ∀ row ∈ M, row.length = numCols M) : WellFormed (aslinearoperator M) := by
  constructor
  · intro f hf x _
    simp only [aslinearoperator, Option.some.injEq] at hf
    rw [← hf, length_matVecMul]
    rfl
  · intro g hg y _
    simp only [aslinearoperator, Option.some.injEq] at hg
    rw [← hg, rmatVecMul_length M (numCols M) y h]
    rfl

theorem aslinearoperator_hasAdjoint (M : Mat)
    (h : ∀ row ∈ M, row.length = numCols M) : HasAdjoint (aslinearoperator M) :=
  ⟨matVecMul M, rmatVecMul M (numCols M), rfl, rfl,
    fun x y _ _ => adjoint_dot M (numCols M) x y h⟩

theorem Aop_wf (m : Nat) : WellFormed (Aop m) := by
  constructor <;>
    · intro f hf x _
      simp only [Aop, Option.some.injEq] at hf
      rw [← hf]
      simp [Afun, Aop]

theorem transpose_transpose (A : LazyOperator) : transpose (transpose A) = A := by
  obtain ⟨⟨r, c⟩, mv, rmv, mm, rmm⟩ := A
  rfl

/-- Claim C4: for every LazyOperator `A`, `transpose (transpose A)` behaves
identically to `A` — it has the same shape and produces the same result for
every `apply`, `apply_adjoint`, `apply_matrix` and `apply_adjoint_matrix`
input. -/
theorem claim_C4_double_transpose (A : LazyOperator) :
    (transpose (transpose A)).shape = A.shape ∧
    (∀ x : Vec, (transpose (transpose A)).apply x = A.apply x) ∧
    (∀ y : Vec, (transpose (transpose A)).apply_adjoint y = A.apply_adjoint y) ∧
    (∀ X : Mat, (transpose (transpose A)).apply_matrix X = A.apply_matrix X) ∧
    (∀ Y : Mat, (transpose (transpose A)).apply_adjoint_matrix Y =
      A.apply_adjoint_matrix Y) := by
  rw [transpose_transpose]
  exact ⟨rfl, fun _ => rfl, fun _ => rfl, fun _ => rfl, fun _ => rfl⟩

/-- Claim C5: the operator wrapped from a 2-D array `M` of shape `(r, c)`
reproduces ordinary matrix-vector multiplication on every vector of length
`c`; instantiated below at the all-ones 3×4 matrix `ones(3,1) @ ones(1,4)`
with input `[1,1,1,1]` giving `[4,4,4]`. -/
theorem claim_C5_array_backed (M : Mat) (r c : Nat) (hr : M.length = r)
    (_hc : ∀ row ∈ M, row.length = c) (hnc : numCols M = c)
    (x : Vec) (hx : x.length = c) :
    (aslinearoperator M).shape = (r, c) ∧
    (aslinearoperator M).apply x = Except.ok (matVecMul M x) := by
  constructor
  · simp [aslinearoperator, hr, hnc]
  · simp [LazyOperator.apply, aslinearoperator, hx, hnc, length_matVecMul]

/-- Witness for C5: the all-ones 3×4 matrix built as `ones(3,1) @ ones(1,4)`
wrapped as an operator sends `[1,1,1,1]` to `[4,4,4]`. -/
theorem claim_C5_array_backed_witness :
    (aslinearoperator (matProd (onesMat 3 1) (onesMat 1 4))).apply [1, 1, 1, 1] =
      Except.ok [4, 4, 4] :=
  ((claim_C5_array_backed (matProd (onesMat 3 1) (onesMat 1 4)) 3 4 (by decide)
    (by decide) (by decide) [1, 1, 1, 1] (by decide)).2).trans (by decide)

/-- Claim C6: a dimension mismatch always surfaces as `ShapeError`: on
`apply` when the input length differs from `shape[1]`, on `apply_adjoint`
when it differs from `shape[0]`, on `add` when the two shapes differ, and on
`matmul` when the inner dimensions differ. -/
theorem claim_C6_shape_error_surfaced :
    (∀ (A : LazyOperator) (x : Vec), x.length ≠ A.shape.2 →
      A.apply x = Except.error OpError.shapeError) ∧
    (∀ (A : LazyOperator) (y : Vec), y.length ≠ A.shape.1 →
      A.apply_adjoint y = Except.error OpError.shapeError) ∧
    (∀ A B : LazyOperator, A.shape ≠ B.shape →
      add A B = Except.error OpError.shapeError) ∧
    (∀ A B : LazyOperator, A.shape.2 ≠ B.shape.1 →
      matmul A B = Except.error OpError.shapeError) := by
  refine ⟨fun A x hx => ?_, fun A y hy => ?_, fun A B h => ?_, fun A B h => ?_⟩ <;>
    simp [LazyOperator.apply, LazyOperator.apply_adjoint, add, matmul, *]

/-- Witness for C6: concrete mismatches on each operation. -/
theorem claim_C6_shape_error_surfaced_witness :
    (Aop 2).apply [1, 2, 3] = Except.error OpError.shapeError ∧
    (Aop 2).apply_adjoint [1] = Except.error OpError.shapeError ∧
    add (Aop 2) (Aop 3) = Except.error OpError.shapeError ∧
    matmul (Aop 2) (Aop 3) = Except.error OpError.shapeError :=
  ⟨claim_C6_shape_error_surfaced.1 (Aop 2) [1, 2, 3] (by decide),
   claim_C6_shape_error_surfaced.2.1 (Aop 2) [1] (by decide),
   claim_C6_shape_error_surfaced.2.2.1 (Aop 2) (Aop 3) (by decide),
   claim_C6_shape_error_surfaced.2.2.2 (Aop 2) (Aop 3) (by decide)⟩

/-- Claim C7: an operator built from only `matvec` is constructed
successfully (`fromMatvec` is total, and the result carries the requested
shape and forward map), while `apply_adjoint` — or `transpose` followed by
`apply` — fails with `UnsupportedOperationError` at the point of the call. -/
theorem claim_C7_unsupported_at_call (s : Nat × Nat) (f : Vec → Vec) :
    (fromMatvec s f).shape = s ∧ (fromMatvec s f).matvec = some f ∧
    (∀ y : Vec, y.length = s.1 → (fromMatvec s f).apply_adjoint y =
      Except.error OpError.unsupportedOperationError) ∧
    (∀ x : Vec, x.length = s.1 → (transpose (fromMatvec s f)).apply x =
      Except.error OpError.unsupportedOperationError) := by
  refine ⟨rfl, rfl, fun y hy => ?_, fun x hxl => ?_⟩ <;>
    simp [LazyOperator.apply_adjoint, LazyOperator.apply, fromMatvec, transpose, *]

/-- Witness for C7: a concrete matvec-only operator of shape `(2, 3)`. -/
theorem claim_C7_unsupported_at_call_witness :
    (fromMatvec (2, 3) (Afun 2)).apply_adjoint [5, 7] =
      Except.error OpError.unsupportedOperationError ∧
    (transpose (fromMatvec (2, 3) (Afun 2))).apply [5, 7] =
      Except.error OpError.unsupportedOperationError :=
  ⟨(claim_C7_unsupported_at_call (2, 3) (Afun 2)).2.2.1 [5, 7] (by decide),
   (claim_C7_unsupported_at_call (2, 3) (Afun 2)).2.2.2 [5, 7] (by decide)⟩

/-- Claim C3: for every operator with its shape invariant and a defined
adjoint, and vectors `x`, `y` of the appropriate lengths, both applies
succeed and satisfy the adjoint identity
`dot (A.apply x) y = dot x (A.apply_adjoint y)`. -/
theorem claim_C3_adjoint_identity (A : LazyOperator) (hWF : WellFormed A)
    (hAdj : HasAdjoint A) (x y : Vec) (hx : x.length = A.shape.2)
    (hy : y.length = A.shape.1) :
    ∃ u v, A.apply x = Except.ok u ∧ A.apply_adjoint y = Except.ok v ∧
      dot u y = dot x v := by
  obtain ⟨f, g, hf, hg, hfg⟩ := hAdj
  refine ⟨f x, g y, ?_, ?_, hfg x y hx hy⟩
  · simp [LazyOperator.apply, hf, hx, hWF.1 f hf x hx]
  · simp [LazyOperator.apply_adjoint, hg, hy, hWF.2 g hg y hy]

/-- Witness for C3: the array-backed operator of the 3×2 matrix
`[[1,2],[3,4],[5,6]]` with `x = [1,1]` and `y = [1,1,1]`. -/
theorem claim_C3_adjoint_identity_witness :
    ∃ u v, (aslinearoperator [[1, 2], [3, 4], [5, 6]]).apply [1, 1] = Except.ok u ∧
      (aslinearoperator [[1, 2], [3, 4], [5, 6]]).apply_adjoint [1, 1, 1] =
        Except.ok v ∧
      dot u [1, 1, 1] = dot [1, 1] v :=
  claim_C3_adjoint_identity (aslinearoperator [[1, 2], [3, 4], [5, 6]])
    (aslinearoperator_wellFormed _ (by decide))
    (aslinearoperator_hasAdjoint _ (by decide)) [1, 1] [1, 1, 1]
    (by decide) (by decide)

/-- Claim C8: the shape invariant is preserved by every operator: a
successful `apply` accepted an input of length `shape[1]` and produced an
output of length `shape[0]`; and when `matmat` (resp. `rmatmat`) is not
supplied, `apply_matrix` (resp. `apply_adjoint_matrix`) is the column-wise
application of `matvec` (resp. `rmatvec`). -/
theorem claim_C8_shape_invariant :
    (∀ (A : LazyOperator) (x v : Vec), A.apply x = Except.ok v →
      x.length = A.shape.2 ∧ v.length = A.shape.1) ∧
    (∀ (A : LazyOperator) (f : Vec → Vec) (X : Mat), A.matmat = none →
      A.matvec = some f → (∀ col ∈ X, col.length = A.shape.2) →
      (∀ col ∈ X, (f col).length = A.shape.1) →
      A.apply_matrix X = Except.ok (X.map f)) ∧
    (∀ (A : LazyOperator) (g : Vec → Vec) (Y : Mat), A.rmatmat = none →
      A.rmatvec = some g → (∀ col ∈ Y, col.length = A.shape.1) →
      (∀ col ∈ Y, (g col).length = A.shape.2) →
      A.apply_adjoint_matrix Y = Except.ok (Y.map g)) := by
  refine ⟨fun A x v h => ?_, fun A f X hmm hmv hX hfX => ?_,
    fun A g Y hmm hmv hY hgY => ?_⟩
  · by_cases hx : x.length = A.shape.2
    · rcases hAv : A.matvec with _ | f
      · simp [LazyOperator.apply, hx, hAv] at h
      · by_cases hl : (f x).length = A.shape.1
        · simp [LazyOperator.apply, hx, hAv, hl] at h
          exact ⟨hx, h ▸ hl⟩
        · simp [LazyOperator.apply, hx, hAv, hl] at h
    · simp [LazyOperator.apply, hx] at h
  · have hX' : ¬ ∃ x ∈ X, ¬ x.length = A.shape.2 := by push_neg; exact hX
    have hfX' : ¬ ∃ x ∈ X, ¬ (f x).length = A.shape.1 := by push_neg; exact hfX
    simp [LazyOperator.apply_matrix, LazyOperator.matmatEff, hmm, hmv, hX', hfX']
  · have hY' : ¬ ∃ x ∈ Y, ¬ x.length = A.shape.1 := by push_neg; exact hY
    have hgY' : ¬ ∃ x ∈ Y, ¬ (g x).length = A.shape.2 := by push_neg; exact hgY
    simp [LazyOperator.apply_adjoint_matrix, LazyOperator.rmatmatEff, hmm, hmv,
      hY', hgY']

/-- Witness for C8: a successful apply of the function-backed operator, a
matvec-only operator applied column-wise to a matrix, and an rmatvec-only
operator applied column-wise in the adjoint direction. -/
theorem claim_C8_shape_invariant_witness :
    (([1, 2] : Vec).length = (Aop 2).shape.2 ∧
      ([3, 3] : Vec).length = (Aop 2).shape.1) ∧
    (fromMatvec (2, 2) (Afun 2)).apply_matrix [[1, 2]] = Except.ok [[3, 3]] ∧
    LazyOperator.apply_adjoint_matrix
      ⟨(1, 2), none, some (rmatVecMul [[1, 2]] 2), none, none⟩ [[2]] =
      Except.ok [[2, 4]] :=
  ⟨claim_C8_shape_invariant.1 (Aop 2) [1, 2] [3, 3] (by decide),
   (claim_C8_shape_invariant.2.1 (fromMatvec (2, 2) (Afun 2)) (Afun 2) [[1, 2]]
     rfl rfl (by decide) (by decide)).trans (by decide),
   (claim_C8_shape_invariant.2.2 ⟨(1, 2), none, some (rmatVecMul [[1, 2]] 2), none, none⟩
     (rmatVecMul [[1, 2]] 2) [[2]] rfl rfl (by decide) (by decide)).trans (by decide)⟩

/-- Claim C1: for operators with `A.shape[1] = B.shape[0]` (and `B`
satisfying its shape invariant), the product operator has shape
`(A.shape[0], B.shape[1])` and applies the right operand first:
`(A@B).apply x = A.apply (B.apply x)`. -/
theorem claim_C1_matmul_right_first (A B : LazyOperator)
    (hAB : A.shape.2 = B.shape.1) (hB : MatvecWF B) :
    (matmul A B).map LazyOperator.shape = Except.ok (A.shape.1, B.shape.2) ∧
    ∀ x : Vec, (matmul A B).bind (fun C => C.apply x) =
      (B.apply x).bind (fun v => A.apply v) := by
  have hcond : ¬ A.shape.2 ≠ B.shape.1 := not_not_intro hAB
  constructor
  · simp [matmul, if_neg hcond, Except.map]
  · intro x
    simp only [matmul, if_neg hcond]
    by_cases hx : x.length = B.shape.2
    · rcases hBv : B.matvec with _ | g
      · rcases hAv : A.matvec with _ | f <;>
          simp [LazyOperator.apply, hAv, hBv, hx, Except.bind]
      · have hg := hB g hBv x hx
        rcases hAv : A.matvec with _ | f <;>
          simp [LazyOperator.apply, hAv, hBv, hx, hg, hAB, Except.bind]
    · simp [LazyOperator.apply, hx, Except.bind]

/-- Witness for C1: the product of the sum-and-repeat operator with itself,
applied to `[1, 2]`; both association orders give `[6, 6]`. -/
theorem claim_C1_matmul_right_first_witness :
    (matmul (Aop 2) (Aop 2)).bind (fun C => C.apply [1, 2]) = Except.ok [6, 6] ∧
    ((Aop 2).apply [1, 2]).bind (fun v => (Aop 2).apply v) = Except.ok [6, 6] ∧
    (matmul (Aop 2) (Aop 2)).map LazyOperator.shape = Except.ok (2, 2) :=
  ⟨((claim_C1_matmul_right_first (Aop 2) (Aop 2) rfl (Aop_wf 2).1).2 [1, 2]).trans
    (by decide),
   by decide,
   (claim_C1_matmul_right_first (Aop 2) (Aop 2) rfl (Aop_wf 2).1).1⟩

/-- Claim C2: for operators of equal shape satisfying their shape
invariants, the sum operator applies element-wise:
`(A+B).apply x = A.apply x + B.apply x`. -/
theorem claim_C2_add_elementwise (A B : LazyOperator) (hAB : A.shape = B.shape)
    (hA : MatvecWF A) (hB : MatvecWF B) :
    ∀ x : Vec, (add A B).bind (fun C => C.apply x) =
      (A.apply x).bind (fun u => (B.apply x).map (fun v => vecAdd u v)) := by
  have hsh : ¬ A.shape ≠ B.shape := not_not_intro hAB
  have h1 : B.shape.1 = A.shape.1 := by rw [hAB]
  have e1 : A.shape.1 = B.shape.1 := by rw [hAB]
  have e2 : A.shape.2 = B.shape.2 := by rw [hAB]
  intro x
  simp only [add, if_neg hsh]
  by_cases hx : x.length = A.shape.2
  · have hxB : x.length = B.shape.2 := by rw [hx, hAB]
    rcases hAv : A.matvec with _ | f
    · simp [LazyOperator.apply, hAv, hx, Except.bind]
    · have hf : (f x).length = A.shape.1 := hA f hAv x hx
      rcases hBv : B.matvec with _ | g
      · simp [LazyOperator.apply, hAv, hBv, hx, hxB, hf, e1, e2, Except.bind,
          Except.map]
      · have hg : (g x).length = A.shape.1 := (hB g hBv x hxB).trans h1
        simp [LazyOperator.apply, hAv, hBv, hx, hxB, hf, hg, e1, e2,
          length_vecAdd, Except.bind, Except.map]
  · have hxB : x.length ≠ B.shape.2 := by rw [← hAB]; exact hx
    simp [LazyOperator.apply, hx, hxB, Except.bind]

/-- Witness for C2: the sum of the sum-and-repeat operator with itself
applied to `[1, 2]` gives `[6, 6]`, the element-wise sum of `[3, 3]` and
`[3, 3]`. -/
theorem claim_C2_add_elementwise_witness :
    (add (Aop 2) (Aop 2)).bind (fun C => C.apply [1, 2]) = Except.ok [6, 6] :=
  (claim_C2_add_elementwise (Aop 2) (Aop 2) rfl (Aop_wf 2).1 (Aop_wf 2).1
    [1, 2]).trans (by decide)

/-- Claim C10: self-sum equals scalar double — for every operator `A` and
vector `x`, `(A+A).apply x = scale(2)(A).apply x = 2 · A.apply x`; and for
the notebook's all-ones `m × m` operator, `A+A` acts as the matrix with `2`
in every entry (sending `x` to the constant vector `2·sum x`) while `A@A`
acts as `m · A` (sending `x` to the constant vector `m·sum x`). -/
theorem claim_C10_self_sum_is_double :
    (∀ (A : LazyOperator) (x : Vec),
      (add A A).bind (fun C => C.apply x) = (scale 2 A).apply x ∧
      (scale 2 A).apply x = (A.apply x).map (fun v => vecSmul 2 v)) ∧
    (∀ (m : Nat) (x : Vec), x.length = m →
      (add (Aop m) (Aop m)).bind (fun C => C.apply x) =
        Except.ok (List.replicate m (2 * x.sum)) ∧
      (matmul (Aop m) (Aop m)).bind (fun C => C.apply x) =
        Except.ok (List.replicate m ((m : ℤ) * x.sum))) := by
  constructor
  · intro A x
    have hsh : ¬ A.shape ≠ A.shape := not_not_intro rfl
    constructor
    · simp only [add, if_neg hsh]
      by_cases hx : x.length = A.shape.2
      · rcases hAv : A.matvec with _ | f <;>
          simp [LazyOperator.apply, scale, hAv, hx, Except.bind, vecAdd_self]
      · simp [LazyOperator.apply, scale, hx, Except.bind]
    · by_cases hx : x.length = A.shape.2
      · rcases hAv : A.matvec with _ | f
        · simp [LazyOperator.apply, scale, hAv, hx, Except.map]
        · by_cases hl : (f x).length = A.shape.1
          · simp [LazyOperator.apply, scale, hAv, hx, hl, length_vecSmul,
              Except.map]
          · simp [LazyOperator.apply, scale, hAv, hx, hl, length_vecSmul,
              Except.map]
      · simp [LazyOperator.apply, scale, hx, Except.map]
  · intro m x hx
    have hsh : ¬ (Aop m).shape ≠ (Aop m).shape := not_not_intro rfl
    constructor
    · simp only [add, if_neg hsh]
      simp [LazyOperator.apply, Aop, Afun, hx, Except.bind, vecAdd_self, vecSmul,
        List.map_replicate, two_mul]
    · have hmul : ¬ (Aop m).shape.2 ≠ (Aop m).shape.1 := not_not_intro rfl
      simp only [matmul, if_neg hmul]
      simp [LazyOperator.apply, Aop, Afun, hx, Except.bind, List.sum_replicate,
        nsmul_eq_mul]

/-- Witness for C10: with `m = 3` and `x = [1,1,1]`, `(A+A) x = [6,6,6]`,
`(A@A) x = [9,9,9]`, and `scale 2 A` also gives `[6,6,6]`. -/
theorem claim_C10_self_sum_is_double_witness :
    (add (Aop 3) (Aop 3)).bind (fun C => C.apply [1, 1, 1]) =
      Except.ok [6, 6, 6] ∧
    (matmul (Aop 3) (Aop 3)).bind (fun C => C.apply [1, 1, 1]) =
      Except.ok [9, 9, 9] ∧
    (scale 2 (Aop 3)).apply [1, 1, 1] = Except.ok [6, 6, 6] :=
  ⟨((claim_C10_self_sum_is_double.2 3 [1, 1, 1] rfl).1).trans (by decide),
   ((claim_C10_self_sum_is_double.2 3 [1, 1, 1] rfl).2).trans (by decide),
   ((claim_C10_self_sum_is_double.1 (Aop 3) [1, 1, 1]).2).trans (by decide)⟩
